import Mathlib

/-!
Verification of the motion-sequencer core of the gong servo controller.

The embedded definitions translate the request handler registered on
POST /servo in src/main.rs, together with the pure helper
fn interpolate(angle, min, max) = angle * (max - min) / 180 + min
on u32 values. Machine integers are modelled as Nat with explicit
reduction modulo 2^32 where u32 overflow matters (release-profile
wrapping semantics). Panicking operations (unwrap on from_utf8 and on
str::parse) are modelled as Except values; the handler body is
straight-line code in which the Vec collect of all tokens completes
before the first set_duty call, which the handler embedding reflects.
-/

/-- The u32 modulus. -/
def u32Mod : Nat := 4294967296

/-- Translation of fn interpolate in src/main.rs:
angle * (max - min) / 180 + min, all operations in u32 arithmetic
(wrapping subtraction, multiplication and addition, truncating
division). Arguments are expected below u32Mod. -/
def interpolate (angle mi ma : Nat) : Nat :=
  ((angle * ((ma + u32Mod - mi) % u32Mod)) % u32Mod / 180 + mi) % u32Mod

/-- Continuation byte of a UTF-8 sequence: 0x80 to 0xBF. -/
def contB (b : Nat) : Bool := decide (128 ≤ b ∧ b ≤ 191)

/-- Validity of a byte list as UTF-8, the check performed by
std::str::from_utf8 in the handler. Overlong encodings, surrogates and
values above U+10FFFF are invalid, following the standard table. -/
def validUtf8 : List Nat → Bool
  | [] => true
  | b :: rest =>
    if b ≤ 127 then validUtf8 rest
    else if 194 ≤ b ∧ b ≤ 223 then
      match rest with
      | c1 :: r2 => contB c1 && validUtf8 r2
      | [] => false
    else if b = 224 then
      match rest with
      | c1 :: c2 :: r2 => decide (160 ≤ c1 ∧ c1 ≤ 191) && contB c2 && validUtf8 r2
      | _ => false
    else if 225 ≤ b ∧ b ≤ 236 then
      match rest with
      | c1 :: c2 :: r2 => contB c1 && contB c2 && validUtf8 r2
      | _ => false
    else if b = 237 then
      match rest with
      | c1 :: c2 :: r2 => decide (128 ≤ c1 ∧ c1 ≤ 159) && contB c2 && validUtf8 r2
      | _ => false
    else if 238 ≤ b ∧ b ≤ 239 then
      match rest with
      | c1 :: c2 :: r2 => contB c1 && contB c2 && validUtf8 r2
      | _ => false
    else if b = 240 then
      match rest with
      | c1 :: c2 :: c3 :: r2 => decide (144 ≤ c1 ∧ c1 ≤ 191) && contB c2 && contB c3 && validUtf8 r2
      | _ => false
    else if 241 ≤ b ∧ b ≤ 243 then
      match rest with
      | c1 :: c2 :: c3 :: r2 => contB c1 && contB c2 && contB c3 && validUtf8 r2
      | _ => false
    else if b = 244 then
      match rest with
      | c1 :: c2 :: c3 :: r2 => decide (128 ≤ c1 ∧ c1 ≤ 143) && contB c2 && contB c3 && validUtf8 r2
      | _ => false
    else false

/-- Splitting a byte list on the comma byte 44, mirroring
str::split(",") on the decoded text: it yields every (possibly empty)
segment and always yields at least one segment. Since the comma byte
never occurs inside a multi-byte UTF-8 sequence, splitting the raw
bytes agrees with splitting the decoded string. -/
def splitB : List Nat → List (List Nat)
  | [] => [[]]
  | b :: rest =>
    if b = 44 then [] :: splitB rest
    else
      match splitB rest with
      | t :: ts => (b :: t) :: ts
      | [] => [[b]]

/-- Value of a digit-only byte list, none on any non-digit byte. -/
def digitsToNat (l : List Nat) : Option Nat :=
  l.foldl
    (fun acc b =>
      match acc with
      | none => none
      | some v => if 48 ≤ b ∧ b ≤ 57 then some (v * 10 + (b - 48)) else none)
    (some 0)

/-- Translation of str::parse::<u32> on one token: an optional leading
plus sign, then one or more ASCII digits, value below 2^32; anything
else (empty token, other bytes, overflow) fails. -/
def parseU32 (tok : List Nat) : Option Nat :=
  let body := match tok with
    | 43 :: rest => rest
    | _ => tok
  if body = [] then none
  else
    match digitsToNat body with
    | none => none
    | some v => if v < u32Mod then some v else none

/-- Error taxonomy of the parse stage from the specification. The
observed code signals Encoding (from_utf8 unwrap) and InvalidNumber
(parse unwrap); it contains no length-parity or size check, so
MalformedTimeline and PayloadTooLarge are never produced. -/
inductive ParseError where
  | Encoding : ParseError
  | InvalidNumber : ParseError
  | MalformedTimeline : ParseError
  | PayloadTooLarge : ParseError
deriving DecidableEq

/-- Sequential numeric parsing of all tokens, mirroring the
map-parse-unwrap-collect pipeline: it fails at the first bad token and
otherwise returns every numeric value in order. -/
def parseTokens : List (List Nat) → Except ParseError (List Nat)
  | [] => Except.ok []
  | t :: ts =>
    match parseU32 t with
    | none => Except.error ParseError.InvalidNumber
    | some n =>
      match parseTokens ts with
      | Except.error e => Except.error e
      | Except.ok ns => Except.ok (n :: ns)

/-- The parse stage of the handler: UTF-8 decoding of the request
bytes, then splitting on commas and numeric parsing of every token.
The code performs no check on the length parity of the numeric list. -/
def parse (bytes : List Nat) : Except ParseError (List Nat) :=
  if validUtf8 bytes then parseTokens (splitB bytes)
  else Except.error ParseError.Encoding

/-- Observable actuator events of one handler execution: a duty write,
or a sleep of the calling context in milliseconds. -/
inductive Event where
  | write : Nat → Event
  | sleep : Nat → Event
deriving DecidableEq

/-- Event sequence of the handler body on a parsed numeric list ts:
set_duty(interpolate(ts[0])) first, then for i in 0..(ts.len()-1)/2
a sleep of ts[i*2+1] milliseconds followed by
set_duty(interpolate(ts[i*2+2])), exactly as the loop in src/main.rs. -/
def handlerEvents (ts : List Nat) (mi ma : Nat) : List Event :=
  Event.write (interpolate (ts.getD 0 0) mi ma) ::
    (List.range ((ts.length - 1) / 2)).flatMap (fun i =>
      [Event.sleep (ts.getD (i * 2 + 1) 0),
       Event.write (interpolate (ts.getD (i * 2 + 2) 0) mi ma)])

/-- The whole request handler on the bytes read from the request body:
parse first (any failed unwrap aborts before the first set_duty, since
the Vec collect completes before the first write), then the event
sequence of the execution loop. -/
def servoHandler (bytes : List Nat) (mi ma : Nat) : Except ParseError (List Event) :=
  match parse bytes with
  | Except.error e => Except.error e
  | Except.ok ts => Except.ok (handlerEvents ts mi ma)

/-- Duty values of the write events, in order. -/
def writesE (evs : List Event) : List Nat :=
  evs.filterMap (fun e =>
    match e with
    | Event.write d => some d
    | Event.sleep _ => none)

/-- Number of duty writes in an event list. -/
def countWrites (evs : List Event) : Nat := (writesE evs).length

/-- Duty writes performed by a handler run; a run that aborts in the
parse stage performs none. -/
def writesOf (r : Except ParseError (List Event)) : List Nat :=
  match r with
  | Except.error _ => []
  | Except.ok evs => writesE evs

/-- Pairing of the tail tokens into (hold, position) steps, the
timeline view of the specification. -/
def chunkPairs : List Nat → List (Nat × Nat)
  | w :: a :: rest => (w, a) :: chunkPairs rest
  | _ => []

/-- Modelled from the spec: event sequence stated in timeline form —
seek to the first position immediately, then for each subsequent step
hold for its duration and seek to its position. Compared with
handlerEvents, which follows the index arithmetic of the source. -/
def specEvents (ts : List Nat) (mi ma : Nat) : List Event :=
  Event.write (interpolate (ts.headD 0) mi ma) ::
    (chunkPairs (ts.drop 1)).flatMap (fun p =>
      [Event.sleep p.1, Event.write (interpolate p.2 mi ma)])

/-- Atomic operations of one handler execution as seen by the shared
actuator: acquiring the servo mutex, writing a duty value while
holding it, releasing it, and sleeping. -/
inductive Op where
  | lockOp : Op
  | unlockOp : Op
  | writeOp : Nat → Op
  | sleepOp : Nat → Op
deriving DecidableEq

/-- Operation sequence of one handler execution on a parsed list ts.
Each statement servo.lock().unwrap().set_duty(..) in src/main.rs
acquires the mutex, writes, and drops the guard at the end of that
statement, so every write is bracketed by its own lock and unlock;
the sleep between steps happens with the mutex released. -/
def opsOf (ts : List Nat) (mi ma : Nat) : List Op :=
  [Op.lockOp, Op.writeOp (interpolate (ts.getD 0 0) mi ma), Op.unlockOp] ++
    (List.range ((ts.length - 1) / 2)).flatMap (fun i =>
      [Op.sleepOp (ts.getD (i * 2 + 1) 0), Op.lockOp,
       Op.writeOp (interpolate (ts.getD (i * 2 + 2) 0) mi ma), Op.unlockOp])

/-- State of two concurrently dispatched handler invocations sharing
the actuator mutex: the remaining operations of each thread, the
current mutex holder, and the trace of duty writes observed on the
actuator, tagged with the writing thread. -/
structure Conc where
  a : List Op
  b : List Op
  holder : Option Bool
  trace : List (Bool × Nat)
deriving DecidableEq

/-- Remaining operations of thread t (true is thread A). -/
def getOps (t : Bool) (s : Conc) : List Op := if t then s.a else s.b

/-- Replace the remaining operations of thread t. -/
def setOps (t : Bool) (l : List Op) (s : Conc) : Conc :=
  if t then { s with a := l } else { s with b := l }

/-- One scheduling step giving thread t the processor: its next
operation executes, except that acquiring a held mutex blocks (the
state is unchanged and the operation stays pending, as with the
blocking Mutex::lock). -/
def step1 (t : Bool) (s : Conc) : Conc :=
  match getOps t s with
  | [] => s
  | Op.lockOp :: rest =>
    match s.holder with
    | none => { setOps t rest s with holder := some t }
    | some _ => s
  | Op.unlockOp :: rest => { setOps t rest s with holder := none }
  | Op.writeOp d :: rest => { setOps t rest s with trace := s.trace ++ [(t, d)] }
  | Op.sleepOp _ :: rest => setOps t rest s

/-- Execution of the two-thread system under an arbitrary interleaving
schedule: each schedule entry names the thread that runs next. -/
def runSched (sched : List Bool) (s : Conc) : Conc :=
  match sched with
  | [] => s
  | t :: rest => runSched rest (step1 t s)

/-- Initial state: both handler invocations pending, mutex free, no
writes observed. -/
def initConc (opsA opsB : List Op) : Conc := ⟨opsA, opsB, none, []⟩

/-- Duty values written by thread t in an observed trace, in order. -/
def projT (t : Bool) (tr : List (Bool × Nat)) : List Nat :=
  tr.filterMap (fun p => if p.1 = t then some p.2 else none)

/-- Duty values of the write operations of an operation list. -/
def writeVals (ops : List Op) : List Nat :=
  ops.filterMap (fun op =>
    match op with
    | Op.writeOp d => some d
    | _ => none)

/-- Bridge from the wrapping u32 computation to plain integer
arithmetic: when neither the subtraction, the multiplication nor the
final addition wraps, interpolate is the textbook formula. -/
theorem interp_nat_eq (a mi ma : Nat) (h1 : mi ≤ ma) (h2 : ma < u32Mod)
    (h3 : a * (ma - mi) < u32Mod) (h4 : a * (ma - mi) / 180 + mi < u32Mod) :
    interpolate a mi ma = a * (ma - mi) / 180 + mi := by
  unfold interpolate
  have e1 : (ma + u32Mod - mi) % u32Mod = ma - mi := by
    simp only [u32Mod] at *
    omega
  rw [e1, Nat.mod_eq_of_lt h3, Nat.mod_eq_of_lt h4]

/-- Arithmetic bounds used by several interpolation theorems: with the
angle at most 180 and no overflow of 180 * (ma - mi), the quotient
term is at most ma - mi. -/
theorem interp_quot_le (a mi ma : Nat) (ha : a ≤ 180) :
    a * (ma - mi) / 180 ≤ ma - mi := by
  have h : a * (ma - mi) ≤ 180 * (ma - mi) := Nat.mul_le_mul_right _ ha
  have h2 : a * (ma - mi) / 180 ≤ 180 * (ma - mi) / 180 := Nat.div_le_div_right h
  have h3 : 180 * (ma - mi) / 180 = ma - mi :=
    Nat.mul_div_cancel_left _ (by norm_num)
  omega

/-- C5: for every angle and calibrated range, interpolate returns
exactly angle * (max - min) / 180 + min; under the stated no-overflow
side conditions the unsigned arithmetic of the source coincides with
plain integer arithmetic, so the result is the exact formula. -/
theorem interpolate_formula (a mi ma : Nat) (h1 : mi ≤ ma) (h2 : ma < u32Mod)
    (h3 : a * (ma - mi) < u32Mod) (h4 : a * (ma - mi) / 180 + mi < u32Mod) :
    interpolate a mi ma = a * (ma - mi) / 180 + mi :=
  interp_nat_eq a mi ma h1 h2 h3 h4

/-- Witness for C5 at angle 90 with the observed calibration 100/800:
interpolate 90 100 800 = 90 * 700 / 180 + 100 = 450. -/
theorem interpolate_formula_wit :
    interpolate 90 100 800 = 90 * (800 - 100) / 180 + 100 :=
  interpolate_formula 90 100 800 (by decide) (by decide) (by decide) (by decide)

/-- Counterexample to C6 as stated: for the calibrated range min = 0,
max = 4294967295 (a legal u32 range with min less than or equal to
max) the multiplication 180 * (max - min) wraps modulo 2^32 and
to_duty(180) returns 23860928, not max. -/
theorem endpoints_overflow_cex :
    (0 : Nat) ≤ 4294967295 ∧ (4294967295 : Nat) < u32Mod ∧
    interpolate 180 0 4294967295 = 23860928 ∧
    ¬ interpolate 180 0 4294967295 = 4294967295 := by
  refine ⟨by decide, by decide, ?_, ?_⟩ <;> decide

/-- C6 amended: for every calibrated range with min less than or equal
to max whose width keeps 180 * (max - min) below 2^32, the endpoints
are exact: to_duty(0) = min and to_duty(180) = max. -/
theorem endpoints_exact (mi ma : Nat) (h1 : mi ≤ ma) (h2 : ma < u32Mod)
    (hd : 180 * (ma - mi) < u32Mod) :
    interpolate 0 mi ma = mi ∧ interpolate 180 mi ma = ma := by
  have hmi : mi < u32Mod := Nat.lt_of_le_of_lt h1 h2
  constructor
  · have h := interp_nat_eq 0 mi ma h1 h2 (by simp [u32Mod]) ?_
    · simpa using h
    · simpa [u32Mod] using hmi
  · have hq : 180 * (ma - mi) / 180 = ma - mi :=
      Nat.mul_div_cancel_left _ (by norm_num)
    have h := interp_nat_eq 180 mi ma h1 h2 hd (by omega)
    rw [h, hq]
    omega

/-- Witness for C6 amended at the observed calibration 100/800. -/
theorem endpoints_exact_wit :
    interpolate 0 100 800 = 100 ∧ interpolate 180 100 800 = 800 :=
  endpoints_exact 100 800 (by decide) (by decide) (by decide)

/-- Counterexample to C7 as stated: with min = 0, max = 4294967295
(min less than or equal to max) and angles 1 < 180 inside the valid
domain, wrapping makes to_duty decreasing: to_duty(1) = 23860929 is
strictly above to_duty(180) = 23860928. -/
theorem monotone_overflow_cex :
    (0 : Nat) ≤ 4294967295 ∧ (1 : Nat) < 180 ∧ (180 : Nat) ≤ 180 ∧
    interpolate 1 0 4294967295 = 23860929 ∧
    interpolate 180 0 4294967295 = 23860928 ∧
    ¬ interpolate 1 0 4294967295 ≤ interpolate 180 0 4294967295 := by
  refine ⟨by decide, by decide, by decide, ?_, ?_, ?_⟩ <;> decide

/-- C7 amended: for every calibrated range with min less than or equal
to max whose width keeps 180 * (max - min) below 2^32, the duty mapper
is monotonic on the valid domain: angle1 < angle2 both at most 180
gives to_duty(angle1) at most to_duty(angle2). -/
theorem interpolate_monotone (mi ma a1 a2 : Nat) (h1 : mi ≤ ma) (h2 : ma < u32Mod)
    (hd : 180 * (ma - mi) < u32Mod) (ha : a1 < a2) (ha2 : a2 ≤ 180) :
    interpolate a1 mi ma ≤ interpolate a2 mi ma := by
  have ha1 : a1 ≤ 180 := by omega
  have hm1 : a1 * (ma - mi) ≤ 180 * (ma - mi) := Nat.mul_le_mul_right _ ha1
  have hm2 : a2 * (ma - mi) ≤ 180 * (ma - mi) := Nat.mul_le_mul_right _ ha2
  have hq1 := interp_quot_le a1 mi ma ha1
  have hq2 := interp_quot_le a2 mi ma ha2
  have e1 := interp_nat_eq a1 mi ma h1 h2 (by omega) (by omega)
  have e2 := interp_nat_eq a2 mi ma h1 h2 (by omega) (by omega)
  rw [e1, e2]
  have hmono : a1 * (ma - mi) ≤ a2 * (ma - mi) :=
    Nat.mul_le_mul_right _ (Nat.le_of_lt ha)
  have := Nat.div_le_div_right (c := 180) hmono
  omega

/-- Witness for C7 amended: to_duty(45) at most to_duty(135) on the
observed calibration 100/800. -/
theorem interpolate_monotone_wit :
    interpolate 45 100 800 ≤ interpolate 135 100 800 :=
  interpolate_monotone 100 800 45 135 (by decide) (by decide) (by decide)
    (by decide) (by decide)

/-- C10: on the valid domain with a range width at most
u32::MAX / 180 = 23860929 the computation never wraps and the result
stays inside the calibrated range; above 180 degrees nothing clamps or
rejects, the multiplication can exceed the u32 range, and the result
can leave the calibrated range. -/
theorem interpolate_range_no_overflow :
    (∀ a mi ma : Nat, a ≤ 180 → mi ≤ ma → ma < u32Mod → ma - mi ≤ 23860929 →
      a * (ma - mi) < u32Mod ∧ mi ≤ interpolate a mi ma ∧ interpolate a mi ma ≤ ma) ∧
    (∃ a mi ma : Nat, 180 < a ∧ mi ≤ ma ∧ ma < u32Mod ∧ u32Mod ≤ a * (ma - mi)) ∧
    (∃ a mi ma : Nat, 180 < a ∧ mi ≤ ma ∧ ma < u32Mod ∧ ma < interpolate a mi ma) := by
  refine ⟨?_, ⟨2147483648, 0, 4, by decide, by decide, by decide, by decide⟩,
    ⟨360, 100, 800, by decide, by decide, by decide, by decide⟩⟩
  intro a mi ma ha h1 h2 hw
  have hd : 180 * (ma - mi) < u32Mod := by
    have : 180 * (ma - mi) ≤ 180 * 23860929 := Nat.mul_le_mul_left _ hw
    simp only [u32Mod] at *
    omega
  have hm : a * (ma - mi) ≤ 180 * (ma - mi) := Nat.mul_le_mul_right _ ha
  have hq := interp_quot_le a mi ma ha
  have e := interp_nat_eq a mi ma h1 h2 (by omega) (by omega)
  rw [e]
  omega

/-- Witness for C10 at angle 90 on the observed calibration 100/800. -/
theorem interpolate_range_no_overflow_wit :
    90 * (800 - 100) < u32Mod ∧ 100 ≤ interpolate 90 100 800 ∧
    interpolate 90 100 800 ≤ 800 :=
  interpolate_range_no_overflow.1 90 100 800 (by decide) (by decide) (by decide)
    (by decide)

/-- Splitting always yields at least one segment, like str::split. -/
theorem splitB_ne_nil : ∀ l : List Nat, splitB l ≠ []
  | [] => by simp [splitB]
  | b :: rest => by
    by_cases hb : b = 44
    · simp [splitB, hb]
    · simp only [splitB, if_neg hb]
      cases h : splitB rest <;> simp

/-- Successful token parsing preserves the token count. -/
theorem parseTokens_length : ∀ (toks : List (List Nat)) (ts : List Nat),
    parseTokens toks = Except.ok ts → ts.length = toks.length
  | [], ts, h => by
    simp only [parseTokens, Except.ok.injEq] at h
    simp [← h]
  | t :: rest, ts, h => by
    simp only [parseTokens] at h
    cases hp : parseU32 t with
    | none => rw [hp] at h; cases h
    | some n =>
      rw [hp] at h
      cases hr : parseTokens rest with
      | error e => rw [hr] at h; cases h
      | ok ns =>
        rw [hr] at h
        cases h
        simp [parseTokens_length rest ns hr]

/-- A single bad token makes the whole token-parsing stage fail, as
the unwrap inside the map aborts the collect. -/
theorem parseTokens_err : ∀ (toks : List (List Nat)) (t : List Nat),
    t ∈ toks → parseU32 t = none → ∃ e, parseTokens toks = Except.error e
  | [], t, h, _ => absurd h (List.not_mem_nil t)
  | t0 :: rest, t, h, hnone => by
    simp only [parseTokens]
    cases hp : parseU32 t0 with
    | none => exact ⟨ParseError.InvalidNumber, rfl⟩
    | some n =>
      have ht : t ∈ rest := by
        rcases List.mem_cons.mp h with h1 | h2
        · subst h1; rw [hnone] at hp; cases hp
        · exact h2
      obtain ⟨e, he⟩ := parseTokens_err rest t ht hnone
      rw [he]
      exact ⟨e, rfl⟩

/-- A successful parse never yields the empty numeric list: splitting
yields at least one token and token parsing preserves the count. -/
theorem parse_ok_ne_nil (bytes ts : List Nat) (h : parse bytes = Except.ok ts) :
    ts ≠ [] := by
  unfold parse at h
  split at h
  · have hl := parseTokens_length (splitB bytes) ts h
    have hs := splitB_ne_nil bytes
    intro hnil
    subst hnil
    simp only [List.length_nil] at hl
    exact hs (List.length_eq_zero.mp hl.symm)
  · cases h

/-- Write values of a sleep-write block sequence over an index range:
one write per index, in index order. -/
theorem writesE_range (n : Nat) (f g : Nat → Nat) :
    writesE ((List.range n).flatMap (fun i =>
      [Event.sleep (f i), Event.write (g i)])) = (List.range n).map g := by
  induction n with
  | zero => rfl
  | succ m ih =>
    rw [List.range_succ, List.flatMap_append, List.map_append]
    unfold writesE at *
    rw [List.filterMap_append, ih]
    rfl

/-- The handler performs 1 + (len - 1) / 2 duty writes on a parsed
list of len numbers. -/
theorem countWrites_handlerEvents (ts : List Nat) (mi ma : Nat) :
    countWrites (handlerEvents ts mi ma) = 1 + (ts.length - 1) / 2 := by
  unfold countWrites handlerEvents
  have h := writesE_range ((ts.length - 1) / 2) (fun i => ts.getD (i * 2 + 1) 0)
    (fun i => interpolate (ts.getD (i * 2 + 2) 0) mi ma)
  unfold writesE at *
  rw [List.filterMap_cons]
  simp only [h]
  simp [Nat.add_comm]

/-- Indexing two positions past a double cons skips both heads. -/
theorem getD_cons_two (x y : Nat) (l : List Nat) (n d : Nat) :
    (x :: y :: l).getD (n + 2) d = l.getD n d := rfl

/-- The index-driven loop of the source visits exactly the (hold,
position) pairs of the timeline view: iterating i over the range
below len / 2 with indices i * 2 and i * 2 + 1 produces the same
block sequence as folding over the chunked pair list. -/
theorem flatMap_range_chunk (mi ma : Nat) : ∀ l : List Nat,
    (List.range (l.length / 2)).flatMap (fun i =>
      [Event.sleep (l.getD (i * 2) 0),
       Event.write (interpolate (l.getD (i * 2 + 1) 0) mi ma)]) =
    (chunkPairs l).flatMap (fun p =>
      [Event.sleep p.1, Event.write (interpolate p.2 mi ma)])
  | [] => by simp [chunkPairs]
  | [w] => by simp [chunkPairs]
  | w :: a :: rest => by
    have ih := flatMap_range_chunk mi ma rest
    have hlen : (w :: a :: rest).length / 2 = rest.length / 2 + 1 := by
      simp [List.length_cons]
      omega
    rw [hlen, List.range_succ_eq_map, List.flatMap_cons, List.flatMap_map]
    show _ ++ (List.range (rest.length / 2)).flatMap (fun i =>
        [Event.sleep ((w :: a :: rest).getD (Nat.succ i * 2) 0),
         Event.write (interpolate ((w :: a :: rest).getD (Nat.succ i * 2 + 1) 0) mi ma)]) = _
    have hfun : (fun i =>
        [Event.sleep ((w :: a :: rest).getD (Nat.succ i * 2) 0),
         Event.write (interpolate ((w :: a :: rest).getD (Nat.succ i * 2 + 1) 0) mi ma)]) =
        (fun i =>
        [Event.sleep (rest.getD (i * 2) 0),
         Event.write (interpolate (rest.getD (i * 2 + 1) 0) mi ma)]) := by
      funext i
      have e2 : Nat.succ i * 2 = i * 2 + 2 := by omega
      rw [e2]
      rw [getD_cons_two, show i * 2 + 2 + 1 = i * 2 + 1 + 2 from by omega, getD_cons_two]
    rw [hfun, ih]
    simp [chunkPairs]

/-- C3: on an odd-length token list the handler performs exactly
(len + 1) / 2 duty writes; it writes to_duty of token 0 immediately,
then for each following step sleeps by the token at index 2i + 1 and
writes to_duty of the token at index 2i + 2, with no other writes and
no reordering (stated as equality with the timeline-shaped event
sequence from the spec). -/
theorem odd_timeline_events (ts : List Nat) (mi ma : Nat) (h : ts.length % 2 = 1) :
    handlerEvents ts mi ma = specEvents ts mi ma ∧
    countWrites (handlerEvents ts mi ma) = (ts.length + 1) / 2 := by
  constructor
  · cases ts with
    | nil => simp at h
    | cons h0 t =>
      unfold handlerEvents specEvents
      have hlen : (h0 :: t).length - 1 = t.length := by simp
      have hfun : (fun i =>
          [Event.sleep ((h0 :: t).getD (i * 2 + 1) 0),
           Event.write (interpolate ((h0 :: t).getD (i * 2 + 2) 0) mi ma)]) =
          (fun i =>
          [Event.sleep (t.getD (i * 2) 0),
           Event.write (interpolate (t.getD (i * 2 + 1) 0) mi ma)]) := rfl
      rw [hlen, hfun, flatMap_range_chunk mi ma t]
      rfl
  · rw [countWrites_handlerEvents]
    omega

/-- Witness for C3 on the five-token example timeline. -/
theorem odd_timeline_events_wit :
    handlerEvents [90, 500, 0, 500, 180] 100 800 =
      specEvents [90, 500, 0, 500, 180] 100 800 ∧
    countWrites (handlerEvents [90, 500, 0, 500, 180] 100 800) = 3 :=
  odd_timeline_events [90, 500, 0, 500, 180] 100 800 (by decide)

/-- C4: the payload "90,500,0,500,180" (as bytes) with the calibrated
range 100/800 produces exactly the writes 450, 100, 800 in order, with
a 500 ms hold between consecutive writes. -/
theorem end_to_end_scenario :
    servoHandler [57, 48, 44, 53, 48, 48, 44, 48, 44, 53, 48, 48, 44, 49, 56, 48]
        100 800 =
      Except.ok [Event.write 450, Event.sleep 500, Event.write 100,
        Event.sleep 500, Event.write 800] ∧
    interpolate 90 100 800 = 450 ∧ interpolate 0 100 800 = 100 ∧
    interpolate 180 100 800 = 800 :=
  ⟨rfl, by decide, by decide, by decide⟩

/-- Counterexample to C2 as stated: the payload "90,500" (bytes
[57, 48, 44, 53, 48, 48]) parses to the even-length list [90, 500],
yet the request does not fail with MalformedTimeline: the handler
succeeds and performs one duty write of 450. -/
theorem even_length_accepted_cex :
    parse [57, 48, 44, 53, 48, 48] = Except.ok [90, 500] ∧
    ([90, 500] : List Nat).length % 2 = 0 ∧
    servoHandler [57, 48, 44, 53, 48, 48] 100 800 = Except.ok [Event.write 450] ∧
    writesOf (servoHandler [57, 48, 44, 53, 48, 48] 100 800) = [450] :=
  ⟨rfl, by decide, rfl, by decide⟩

/-- C2 amended: the code performs no length-parity validation. A
payload parsing to an even-length numeric list executes normally: the
handler succeeds and performs len / 2 duty writes (the first angle and
every complete hold-angle pair), silently ignoring the final dangling
token; a zero-length numeric list never occurs, since splitting yields
at least one token and an empty token fails numeric parsing. -/
theorem even_length_executes (bytes ts : List Nat) (mi ma : Nat)
    (h : parse bytes = Except.ok ts) (he : ts.length % 2 = 0) :
    servoHandler bytes mi ma = Except.ok (handlerEvents ts mi ma) ∧
    countWrites (handlerEvents ts mi ma) = ts.length / 2 ∧ ts ≠ [] := by
  have hne : ts ≠ [] := parse_ok_ne_nil bytes ts h
  refine ⟨?_, ?_, hne⟩
  · unfold servoHandler
    rw [h]
  · rw [countWrites_handlerEvents]
    have hpos : 0 < ts.length := List.length_pos.mpr hne
    omega

/-- Witness for C2 amended on the payload "90,500". -/
theorem even_length_executes_wit :
    servoHandler [57, 48, 44, 53, 48, 48] 100 800 =
      Except.ok (handlerEvents [90, 500] 100 800) ∧
    countWrites (handlerEvents [90, 500] 100 800) = 1 ∧
    ([90, 500] : List Nat) ≠ [] :=
  even_length_executes [57, 48, 44, 53, 48, 48] [90, 500] 100 800 rfl (by decide)

/-- C8: any payload whose parse stage fails (invalid UTF-8, or some
token that is not a valid number, including an empty token) makes the
request fail before any hardware access: the handler returns an error
and the list of duty writes performed is empty, because the token
collect completes before the first set_duty call. -/
theorem parse_error_no_write (bytes : List Nat) (mi ma : Nat)
    (h : validUtf8 bytes = false ∨ ∃ tok ∈ splitB bytes, parseU32 tok = none) :
    (∃ e, servoHandler bytes mi ma = Except.error e) ∧
    writesOf (servoHandler bytes mi ma) = [] := by
  have herr : ∃ e, parse bytes = Except.error e := by
    rcases h with hv | ⟨tok, hmem, hnone⟩
    · exact ⟨ParseError.Encoding, by simp [parse, hv]⟩
    · by_cases hv : validUtf8 bytes
      · obtain ⟨e, he⟩ := parseTokens_err (splitB bytes) tok hmem hnone
        exact ⟨e, by simp [parse, hv, he]⟩
      · exact ⟨ParseError.Encoding, by simp [parse, hv]⟩
  obtain ⟨e, he⟩ := herr
  refine ⟨⟨e, ?_⟩, ?_⟩
  · simp [servoHandler, he]
  · simp [servoHandler, he, writesOf]

/-- Witness for C8 on the single non-UTF-8 byte 0xFF. -/
theorem parse_error_no_write_wit :
    (∃ e, servoHandler [255] 100 800 = Except.error e) ∧
    writesOf (servoHandler [255] 100 800) = [] :=
  parse_error_no_write [255] 100 800 (Or.inl (by decide))

/-- C9: the parse stage is total (on every byte sequence it returns
either a parsed list or an error, never diverging, panics being
modelled as error values) and deterministic (equal byte sequences
yield equal results). -/
theorem parse_total_det :
    (∀ bytes : List Nat,
      (∃ ts, parse bytes = Except.ok ts) ∨ (∃ e, parse bytes = Except.error e)) ∧
    (∀ b1 b2 : List Nat, b1 = b2 → parse b1 = parse b2) := by
  constructor
  · intro bytes
    cases h : parse bytes with
    | ok ts => exact Or.inl ⟨ts, rfl⟩
    | error e => exact Or.inr ⟨e, rfl⟩
  · intro b1 b2 h
    rw [h]

/-- Witness for C9: two runs on the byte sequence of "90" agree. -/
theorem parse_total_det_wit : parse [57, 48] = parse [57, 48] :=
  parse_total_det.2 [57, 48] [57, 48] rfl

/-- One scheduling step conserves, for each thread, the concatenation
of the duty values it has already written with the duty values its
remaining operations will write. -/
theorem step1_cons (t u : Bool) (s : Conc) :
    projT t (step1 u s).trace ++ writeVals (getOps t (step1 u s)) =
    projT t s.trace ++ writeVals (getOps t s) := by
  obtain ⟨la, lb, hold, tr⟩ := s
  cases u
  · cases lb with
    | nil => simp [step1, getOps]
    | cons op rest =>
      cases op with
      | lockOp =>
        cases hold with
        | none => cases t <;>
            simp [step1, getOps, setOps, projT, writeVals, List.filterMap_cons]
        | some tb => cases t <;>
            simp [step1, getOps, setOps, projT, writeVals, List.filterMap_cons]
      | unlockOp => cases t <;>
          simp [step1, getOps, setOps, projT, writeVals, List.filterMap_cons]
      | writeOp d => cases t <;>
          simp [step1, getOps, setOps, projT, writeVals, List.filterMap_cons,
            List.filterMap_append]
      | sleepOp ms => cases t <;>
          simp [step1, getOps, setOps, projT, writeVals, List.filterMap_cons]
  · cases la with
    | nil => simp [step1, getOps]
    | cons op rest =>
      cases op with
      | lockOp =>
        cases hold with
        | none => cases t <;>
            simp [step1, getOps, setOps, projT, writeVals, List.filterMap_cons]
        | some tb => cases t <;>
            simp [step1, getOps, setOps, projT, writeVals, List.filterMap_cons]
      | unlockOp => cases t <;>
          simp [step1, getOps, setOps, projT, writeVals, List.filterMap_cons]
      | writeOp d => cases t <;>
          simp [step1, getOps, setOps, projT, writeVals, List.filterMap_cons,
            List.filterMap_append]
      | sleepOp ms => cases t <;>
          simp [step1, getOps, setOps, projT, writeVals, List.filterMap_cons]

/-- The conservation of step1_cons extended over a whole schedule. -/
theorem runSched_cons (t : Bool) (sched : List Bool) : ∀ s : Conc,
    projT t (runSched sched s).trace ++ writeVals (getOps t (runSched sched s)) =
    projT t s.trace ++ writeVals (getOps t s) := by
  induction sched with
  | nil => intro s; rfl
  | cons u rest ih =>
    intro s
    have hstep := step1_cons t u s
    have hrun := ih (step1 u s)
    calc projT t (runSched (u :: rest) s).trace ++
          writeVals (getOps t (runSched (u :: rest) s))
        = projT t (runSched rest (step1 u s)).trace ++
          writeVals (getOps t (runSched rest (step1 u s))) := rfl
      _ = projT t (step1 u s).trace ++ writeVals (getOps t (step1 u s)) := hrun
      _ = projT t s.trace ++ writeVals (getOps t s) := hstep

/-- Counterexample to C1 as stated: the mutex guard of each set_duty
statement is dropped at the end of that statement, so the lock is not
held across inter-step holds. Request A with timeline 0,100,180 and
request B with timeline 90 (calibration 100/800) admit a schedule in
which both run to completion and the actuator observes the write
sequence 100, 450, 800: B's single write lands between A's two
writes, so the observed sequence is neither A's writes followed by
B's nor B's followed by A's. -/
theorem lock_not_held_cex :
    (runSched [true, true, true, true, false, false, false, true, true, true]
        (initConc (opsOf [0, 100, 180] 100 800) (opsOf [90] 100 800))).a = [] ∧
    (runSched [true, true, true, true, false, false, false, true, true, true]
        (initConc (opsOf [0, 100, 180] 100 800) (opsOf [90] 100 800))).b = [] ∧
    (runSched [true, true, true, true, false, false, false, true, true, true]
        (initConc (opsOf [0, 100, 180] 100 800) (opsOf [90] 100 800))).trace =
      [(true, 100), (false, 450), (true, 800)] ∧
    writeVals (opsOf [0, 100, 180] 100 800) = [100, 800] ∧
    writeVals (opsOf [90] 100 800) = [450] ∧
    ¬ ((runSched [true, true, true, true, false, false, false, true, true, true]
          (initConc (opsOf [0, 100, 180] 100 800) (opsOf [90] 100 800))).trace.map
            Prod.snd =
        writeVals (opsOf [0, 100, 180] 100 800) ++ writeVals (opsOf [90] 100 800) ∨
       (runSched [true, true, true, true, false, false, false, true, true, true]
          (initConc (opsOf [0, 100, 180] 100 800) (opsOf [90] 100 800))).trace.map
            Prod.snd =
        writeVals (opsOf [90] 100 800) ++ writeVals (opsOf [0, 100, 180] 100 800)) := by
  decide

/-- C1 amended: the lock is acquired and released around each
individual duty write, not held for the whole timeline; consequently
each write is atomic and every completed pair of concurrent requests
delivers each request's writes to the actuator in full and in program
order, but the two write sequences may interleave with each other at
step boundaries. Stated for every pair of parsed timelines and every
schedule under which both requests run to completion. -/
theorem writes_serialized_per_request (tsA tsB : List Nat) (mi ma : Nat)
    (sched : List Bool)
    (hA : (runSched sched (initConc (opsOf tsA mi ma) (opsOf tsB mi ma))).a = [])
    (hB : (runSched sched (initConc (opsOf tsA mi ma) (opsOf tsB mi ma))).b = []) :
    projT true
        (runSched sched (initConc (opsOf tsA mi ma) (opsOf tsB mi ma))).trace =
      writeVals (opsOf tsA mi ma) ∧
    projT false
        (runSched sched (initConc (opsOf tsA mi ma) (opsOf tsB mi ma))).trace =
      writeVals (opsOf tsB mi ma) := by
  have h1 := runSched_cons true sched (initConc (opsOf tsA mi ma) (opsOf tsB mi ma))
  have h2 := runSched_cons false sched (initConc (opsOf tsA mi ma) (opsOf tsB mi ma))
  have e1 : getOps true
      (runSched sched (initConc (opsOf tsA mi ma) (opsOf tsB mi ma))) = [] := by
    simpa [getOps] using hA
  have e2 : getOps false
      (runSched sched (initConc (opsOf tsA mi ma) (opsOf tsB mi ma))) = [] := by
    simpa [getOps] using hB
  have w0 : writeVals [] = [] := rfl
  have t1 : projT true (initConc (opsOf tsA mi ma) (opsOf tsB mi ma)).trace = [] := rfl
  have t2 : projT false (initConc (opsOf tsA mi ma) (opsOf tsB mi ma)).trace = [] := rfl
  have g1 : getOps true (initConc (opsOf tsA mi ma) (opsOf tsB mi ma)) =
      opsOf tsA mi ma := rfl
  have g2 : getOps false (initConc (opsOf tsA mi ma) (opsOf tsB mi ma)) =
      opsOf tsB mi ma := rfl
  rw [e1, w0, List.append_nil, t1, List.nil_append, g1] at h1
  rw [e2, w0, List.append_nil, t2, List.nil_append, g2] at h2
  exact ⟨h1, h2⟩

/-- Witness for C1 amended on the schedule of the counterexample. -/
theorem writes_serialized_per_request_wit :
    projT true
        (runSched [true, true, true, true, false, false, false, true, true, true]
          (initConc (opsOf [0, 100, 180] 100 800) (opsOf [90] 100 800))).trace =
      writeVals (opsOf [0, 100, 180] 100 800) ∧
    projT false
        (runSched [true, true, true, true, false, false, false, true, true, true]
          (initConc (opsOf [0, 100, 180] 100 800) (opsOf [90] 100 800))).trace =
      writeVals (opsOf [90] 100 800) :=
  writes_serialized_per_request [0, 100, 180] [90] 100 800
    [true, true, true, true, false, false, false, true, true, true]
    (by decide) (by decide)
